import Mathlib

/-!
Verification of the callable registry (`registry/registry.py`).

The registry maps string names to callables plus metadata.  We embed the
Python module shallowly: Python callables become `PyCallable` records carrying
an identity, a declared name, an optional wrapped-inner-function name (the
`func` attribute of partially applied callables) and a signature; Python dicts
become association lists with dict update semantics (`dset`), and every
raising operation returns `Except`.  Only callable values are modelled, so the
`not callable(fn)` TypeError branch of `_register_function` is unreachable
here; every other statement of the source is translated line by line.
-/

namespace CallableRegistry

/-- Parameter kinds of `inspect.Parameter.kind`. -/
inductive ParamKind where
  | positionalOnly
  | positionalOrKeyword
  | varPositional
  | keywordOnly
  | varKeyword
  deriving DecidableEq, Repr

/-- One parameter of a Python signature: its declared name and kind. -/
structure Param where
  name : String
  kind : ParamKind
  deriving DecidableEq, Repr

/-- A Python callable as the registry sees it: an identity tag (object
identity), its `__name__`, the `__name__` of the wrapped inner function when
the callable has a `func` attribute (as `functools` wrappers do), and its
signature parameters in declaration order. -/
structure PyCallable where
  fnId : Nat
  pyName : String
  funcAttr : Option String
  params : List Param
  deriving DecidableEq, Repr

/-- A Python value passed as the `name` argument of registration: either a
string or some non-string object (tagged by a number). -/
inductive PyName where
  | str (s : String)
  | nonStr (tag : Nat)
  deriving DecidableEq, Repr

/-! ### Python dict operations on association lists

A Python dict with string keys is an association list whose keys are unique.
`dget` is `d[k]` as an `Option`, `dset` is `d[k] = v` (update in place when
the key exists, append otherwise), `dremove` is `d.pop(k)` (key assumed
present), `dmerge m kw` is `{**m, **kw}`. -/

def dget {α : Type} : List (String × α) → String → Option α
  | [], _ => none
  | (k', v) :: rest, k => if k = k' then some v else dget rest k

def dset {α : Type} : List (String × α) → String → α → List (String × α)
  | [], k, v => [(k, v)]
  | (k', v') :: rest, k, v =>
      if k' = k then (k, v) :: rest else (k', v') :: dset rest k v

def dremove {α : Type} : List (String × α) → String → List (String × α)
  | [], _ => []
  | (k', v) :: rest, k => if k' = k then rest else (k', v) :: dremove rest k

def dmerge {α : Type} (m kw : List (String × α)) : List (String × α) :=
  kw.foldl (fun d p => dset d p.1 p.2) m

/-! ### The registry data model -/

/-- `RegisteredFunction`: the stored entry (callable, canonical name,
metadata dict).  Metadata values are drawn from an arbitrary type `V`. -/
structure RegisteredFunction (V : Type) where
  fn : PyCallable
  name : String
  metadata : List (String × V)
  deriving DecidableEq, Repr

/-- `Registry`: its diagnostic name, the `functions` dict and the
`bind_metadata` flag. -/
structure Registry (V : Type) where
  name : String
  functions : List (String × RegisteredFunction V)
  bind_metadata : Bool
  deriving DecidableEq, Repr

/-- Errors the module raises. `typeErrName` is the TypeError of `__call__`
for a non-string `name`; `assertFailure` is the failed
`assert isinstance(name, str)` of `_register_function`; `conflict` is its
RuntimeError (carrying the name and the metadata argument interpolated into
the message); `notFound` is the KeyError of `get_with_metadata` (carrying the
key and `available_keys()`); `keyMissing` is the plain KeyError a dict raises
on indexing or `pop` with an absent key. -/
inductive RegError (V : Type) where
  | typeErrName (n : PyName)
  | assertFailure
  | conflict (name : String) (metadata : List (String × V))
  | notFound (key : String) (available : List String)
  | keyMissing (key : String)
  deriving DecidableEq, Repr

variable {V : Type}

/-- `Registry.__init__(name, bind_metadata=False)`. -/
def Registry.init (name : String) (bind_metadata : Bool) : Registry V :=
  ⟨name, [], bind_metadata⟩

/-- `Registry.__len__`. -/
def Registry.size (r : Registry V) : Nat :=
  r.functions.length

/-- `Registry.__contains__`: `any(key == e.name for e in self.functions.values())`. -/
def Registry.mem (r : Registry V) (key : String) : Bool :=
  r.functions.any (fun e => key = e.2.name)

/-- `Registry.available_keys`: `sorted(self.functions.keys())`. -/
def Registry.available_keys (r : Registry V) : List String :=
  (r.functions.map Prod.fst).mergeSort

/-- `Registry._iterate_arg_names`: the names of the POSITIONAL_OR_KEYWORD
parameters of the signature, in order. -/
def iterate_arg_names (fn : PyCallable) : List String :=
  fn.params.filterMap
    (fun p => if p.kind = ParamKind.positionalOrKeyword then some p.name else none)

/-- `Registry._has_var_kwargs`: whether the signature has a VAR_KEYWORD
parameter. -/
def has_var_kwargs (fn : PyCallable) : Bool :=
  fn.params.any (fun p => p.kind = ParamKind.varKeyword)

/-- `Registry.get_with_metadata`: KeyError (with the key and the sorted
available keys) when `key not in self`, else `self.functions[key]`. -/
def Registry.get_with_metadata (r : Registry V) (key : String) :
    Except (RegError V) (RegisteredFunction V) :=
  if r.mem key = false then
    .error (.notFound key r.available_keys)
  else
    match dget r.functions key with
    | some item => .ok item
    | none => .error (.keyMissing key)

/-- Result of `Registry.get`: either the registered callable returned
unchanged, or a `functools` wrapper of it with keyword arguments pre-bound. -/
inductive BoundCallable (V : Type) where
  | orig (fn : PyCallable)
  | bound (fn : PyCallable) (kwargs : List (String × V))
  deriving DecidableEq, Repr

/-- The candidate keyword set of `Registry.get`:
`kwargs = {**metadata, **kwargs}` when `self.bind_metadata`, else `kwargs`. -/
def candidateKwargs (r : Registry V) (metadata kwargs : List (String × V)) :
    List (String × V) :=
  if r.bind_metadata then dmerge metadata kwargs else kwargs

/-- `Registry.get(key, **kwargs)`. -/
def Registry.get (r : Registry V) (key : String) (kwargs : List (String × V)) :
    Except (RegError V) (BoundCallable V) :=
  match r.get_with_metadata key with
  | .error e => .error e
  | .ok item =>
    let fn := item.fn
    let metadata := item.metadata
    let kwargs := candidateKwargs r metadata kwargs
    let kwargs :=
      if has_var_kwargs fn = false then
        kwargs.filter (fun p => (iterate_arg_names fn).contains p.1)
      else kwargs
    .ok (if kwargs.isEmpty = false then .bound fn kwargs else .orig fn)

/-- `Registry.remove`: `self.functions.pop(key)`. -/
def Registry.remove (r : Registry V) (key : String) :
    Except (RegError V) (Registry V) :=
  match dget r.functions key with
  | some _ => .ok { r with functions := dremove r.functions key }
  | none => .error (.keyMissing key)

/-- Name derivation of `_register_function` when `name is None`:
`fn.func.__name__` when the callable has a `func` attribute, else
`fn.__name__`. -/
def derivedName (fn : PyCallable) : String :=
  match fn.funcAttr with
  | some innerName => innerName
  | none => fn.pyName

/-- The name `_register_function` ends up using: the argument when supplied,
the derived name otherwise. -/
def resolvedName (fn : PyCallable) : Option PyName → PyName
  | none => PyName.str (derivedName fn)
  | some n => n

/-- `Registry._register_function(fn, name, override, metadata)`.  Returns the
updated registry.  The metadata argument reaching this point from `__call__`
is always a dict, so `metadata or {}` is the dict itself. -/
def Registry.register_function (r : Registry V) (fn : PyCallable)
    (name : Option PyName) (override : Bool) (metadata : List (String × V)) :
    Except (RegError V) (Registry V) :=
  match resolvedName fn name with
  | .nonStr _ => .error .assertFailure
  | .str s =>
    let item : RegisteredFunction V := ⟨fn, s, metadata⟩
    if override && r.mem s then
      .error (.conflict s metadata)
    else
      .ok { r with functions := dset r.functions s item }

/-- Result of `Registry.__call__`: in the direct form the updated registry
and the returned callable; in the two-phase form the `_register` closure,
represented by the arguments it captures. -/
inductive CallResult (V : Type) where
  | registered (newState : Registry V) (ret : PyCallable)
  | registrar (name : Option PyName) (override : Bool)
      (metadata : List (String × V))
  deriving DecidableEq, Repr

/-- `Registry.__call__(fn, name, override, **metadata)`. -/
def Registry.call (r : Registry V) (fn : Option PyCallable)
    (name : Option PyName) (override : Bool) (metadata : List (String × V)) :
    Except (RegError V) (CallResult V) :=
  match fn with
  | some fn =>
    match r.register_function fn name override metadata with
    | .ok r2 => .ok (.registered r2 fn)
    | .error e => .error e
  | none =>
    match name with
    | some (.nonStr t) => .error (.typeErrName (.nonStr t))
    | _ => .ok (.registrar name override metadata)

/-- Applying the `_register` closure returned by the two-phase form of
`__call__` to a callable: registers it and returns it. -/
def applyRegistrar (r : Registry V) (name : Option PyName) (override : Bool)
    (metadata : List (String × V)) (cls : PyCallable) :
    Except (RegError V) (Registry V × PyCallable) :=
  match r.register_function cls name override metadata with
  | .ok r2 => .ok (r2, cls)
  | .error e => .error e

/-! ### Operation sequences over a registry -/

/-- One client operation on a registry. -/
inductive Op (V : Type) where
  | reg (fn : PyCallable) (name : Option PyName) (override : Bool)
      (metadata : List (String × V))
  | regPhase2 (name : Option PyName) (override : Bool)
      (metadata : List (String × V)) (cls : PyCallable)
  | rem (key : String)
  | lookupOp (key : String)
  | getOp (key : String) (kwargs : List (String × V))
  | containsOp (key : String)
  | sizeOp
  | keysOp

/-- Classification of what one operation did. -/
inductive StepKind where
  | regFresh
  | regReplace
  | remDone
  | readDone
  | errRaised
  deriving DecidableEq, BEq, Repr

/-- Whether a successful registration stores under a fresh dict key or
replaces an existing one. -/
def regKind (r : Registry V) (fn : PyCallable) (name : Option PyName) :
    StepKind :=
  match resolvedName fn name with
  | .str s => if (dget r.functions s).isSome then .regReplace else .regFresh
  | .nonStr _ => .errRaised

/-- One step: a raising operation leaves the registry as it was (the source
raises before any mutation), the read operations return results without
assigning to any attribute. -/
def stepR (r : Registry V) : Op V → Registry V × StepKind
  | .reg fn name ov md =>
    match r.call (some fn) name ov md with
    | .ok (.registered r2 _) => (r2, regKind r fn name)
    | _ => (r, .errRaised)
  | .regPhase2 name ov md cls =>
    match applyRegistrar r name ov md cls with
    | .ok (r2, _) => (r2, regKind r cls name)
    | .error _ => (r, .errRaised)
  | .rem key =>
    match r.remove key with
    | .ok r2 => (r2, .remDone)
    | .error _ => (r, .errRaised)
  | .lookupOp _ => (r, .readDone)
  | .getOp _ _ => (r, .readDone)
  | .containsOp _ => (r, .readDone)
  | .sizeOp => (r, .readDone)
  | .keysOp => (r, .readDone)

/-- Running a sequence of operations, recording what each one did. -/
def runStats (r : Registry V) : List (Op V) → Registry V × List StepKind
  | [] => (r, [])
  | op :: rest =>
    let s := stepR r op
    let t := runStats s.1 rest
    (t.1, s.2 :: t.2)

/-- How many steps of a run were classified as `k`. -/
def countKind (k : StepKind) : List StepKind → Nat
  | [] => 0
  | k' :: rest => (if k' = k then 1 else 0) + countKind k rest

/-- Structural invariant of reachable registries: every stored entry's `name`
equals the dict key under which it is stored. -/
def WF (r : Registry V) : Prop :=
  ∀ p ∈ r.functions, p.2.name = p.1

/-! ### Concrete fixtures used to exercise the theorems -/

/-- A callable `def f(): ...` with no parameters. -/
def fnF : PyCallable := ⟨1, "f", none, []⟩

/-- A second distinct callable `def g(): ...`. -/
def fnG : PyCallable := ⟨2, "g", none, []⟩

/-- A callable `def h(a): ...` with one positional-or-keyword parameter. -/
def fnH : PyCallable := ⟨3, "h", none, [⟨"a", ParamKind.positionalOrKeyword⟩]⟩

/-- A partially applied callable whose `func` attribute is named `inner`. -/
def fnP : PyCallable := ⟨4, "outer", some "inner", []⟩

/-- The entry storing `fnF` under `"f"`. -/
def entryF : RegisteredFunction Nat := ⟨fnF, "f", []⟩

/-- The entry storing `fnG` under `"f"`. -/
def entryGasF : RegisteredFunction Nat := ⟨fnG, "f", []⟩

/-- The entry storing `fnH` under `"k"` with metadata `{a: 1}`. -/
def entryH : RegisteredFunction Nat := ⟨fnH, "k", [("a", 1)]⟩

/-- A registry already holding `"f"`. -/
def regF : Registry Nat := ⟨"reg", [("f", entryF)], false⟩

/-- A metadata-binding registry holding `fnH` under `"k"`. -/
def regH : Registry Nat := ⟨"reg", [("k", entryH)], true⟩

/-- Two registrations under the same name `"a"`, both with `override=False`:
the second one silently replaces the first, so both succeed. -/
def opsTwice : List (Op Nat) :=
  [Op.reg fnF (some (PyName.str "a")) false [],
   Op.reg fnG (some (PyName.str "a")) false []]

/-! ### Lemmas about the dict operations -/

theorem dget_dset_self {α : Type} (d : List (String × α)) (k : String) (v : α) :
    dget (dset d k v) k = some v := by
  induction d with
  | nil => simp [dget, dset]
  | cons hd tl ih =>
    rcases hd with ⟨k', v'⟩
    by_cases h : k' = k
    · simp [dset, h, dget]
    · simp [dset, h, dget, Ne.symm h, ih]

theorem dget_dset_ne {α : Type} (d : List (String × α)) {k s : String} (v : α)
    (h : k ≠ s) : dget (dset d s v) k = dget d k := by
  induction d with
  | nil => simp [dget, dset, h]
  | cons hd tl ih =>
    rcases hd with ⟨k', v'⟩
    by_cases hk : k' = s
    · subst hk
      simp [dset, dget, h]
    · by_cases hq : k = k' <;> simp [dset, hk, dget, hq, ih]

theorem dget_eq_none_iff {α : Type} (d : List (String × α)) (k : String) :
    dget d k = none ↔ k ∉ d.map Prod.fst := by
  induction d with
  | nil => simp [dget]
  | cons hd tl ih =>
    rcases hd with ⟨k', v'⟩
    by_cases h : k = k' <;> simp [dget, h, ih]

theorem dget_isSome_eq_any {α : Type} (d : List (String × α)) (k : String) :
    (dget d k).isSome = d.any (fun p => k = p.1) := by
  induction d with
  | nil => simp [dget]
  | cons hd tl ih =>
    rcases hd with ⟨k', v'⟩
    by_cases h : k = k' <;> simp [dget, h, ih]

theorem dget_dmerge {α : Type} (m kw : List (String × α)) (k : String)
    (hnd : (kw.map Prod.fst).Nodup) :
    dget (dmerge m kw) k = (dget kw k).or (dget m k) := by
  induction kw generalizing m with
  | nil => simp [dmerge, dget]
  | cons hd tl ih =>
    rcases hd with ⟨k0, v0⟩
    simp only [List.map_cons, List.nodup_cons] at hnd
    have step : dmerge m ((k0, v0) :: tl) = dmerge (dset m k0 v0) tl := rfl
    rw [step, ih (dset m k0 v0) hnd.2]
    by_cases h : k = k0
    · subst h
      have : dget tl k = none := (dget_eq_none_iff tl k).2 hnd.1
      simp [dget, this, dget_dset_self]
    · simp [dget, h, dget_dset_ne m v0 h]

theorem dget_filter {α : Type} (d : List (String × α)) (q : String → Bool)
    (k : String) :
    dget (d.filter (fun p => q p.1)) k = if q k then dget d k else none := by
  induction d with
  | nil => simp [dget]
  | cons hd tl ih =>
    rcases hd with ⟨k', v'⟩
    by_cases hq : q k'
    · by_cases h : k = k' <;> simp [List.filter, hq, dget, h, ih, *]
    · by_cases h : k = k'
      · subst h
        simp [List.filter, hq, dget, ih]
      · simp [List.filter, hq, dget, h, ih]

theorem map_fst_dset {α : Type} (d : List (String × α)) (k : String) (v : α) :
    (dset d k v).map Prod.fst =
      if (dget d k).isSome then d.map Prod.fst else d.map Prod.fst ++ [k] := by
  induction d with
  | nil => simp [dget, dset]
  | cons hd tl ih =>
    rcases hd with ⟨k', v'⟩
    by_cases h : k' = k
    · subst h
      simp [dset, dget]
    · simp [dset, h, dget, Ne.symm h, ih]
      split <;> simp

theorem length_dset {α : Type} (d : List (String × α)) (k : String) (v : α) :
    (dset d k v).length =
      if (dget d k).isSome then d.length else d.length + 1 := by
  induction d with
  | nil => simp [dget, dset]
  | cons hd tl ih =>
    rcases hd with ⟨k', v'⟩
    by_cases h : k' = k
    · subst h
      simp [dset, dget]
    · simp [dset, h, dget, Ne.symm h, ih]
      split <;> simp

theorem dremove_sublist {α : Type} (d : List (String × α)) (k : String) :
    List.Sublist (dremove d k) d := by
  induction d with
  | nil => simp [dremove]
  | cons hd tl ih =>
    rcases hd with ⟨k', v'⟩
    by_cases h : k' = k
    · simp [dremove, h, List.sublist_cons_self (k', v') tl]
    · simpa [dremove, h] using ih.cons₂ (k', v')

theorem length_dremove {α : Type} (d : List (String × α)) (k : String) (v : α)
    (h : dget d k = some v) : (dremove d k).length + 1 = d.length := by
  induction d with
  | nil => simp [dget] at h
  | cons hd tl ih =>
    rcases hd with ⟨k', v'⟩
    by_cases hk : k = k'
    · subst hk
      simp [dremove]
    · simp only [dget, if_neg hk] at h
      simp [dremove, Ne.symm hk, ih h]

theorem dget_dremove_ne {α : Type} (d : List (String × α)) {k q : String}
    (h : q ≠ k) : dget (dremove d k) q = dget d q := by
  induction d with
  | nil => simp [dremove]
  | cons hd tl ih =>
    rcases hd with ⟨k', v'⟩
    by_cases hk : k' = k
    · subst hk
      simp [dremove, dget, h]
    · by_cases hq : q = k' <;> simp [dremove, hk, dget, hq, ih]

theorem dget_dremove_self {α : Type} (d : List (String × α)) (k : String)
    (hnd : (d.map Prod.fst).Nodup) : dget (dremove d k) k = none := by
  induction d with
  | nil => simp [dremove, dget]
  | cons hd tl ih =>
    rcases hd with ⟨k', v'⟩
    simp only [List.map_cons, List.nodup_cons] at hnd
    by_cases hk : k' = k
    · subst hk
      simpa [dremove] using (dget_eq_none_iff tl k').2 hnd.1
    · simp [dremove, hk, dget, Ne.symm hk, ih hnd.2]

theorem nodup_keys_dset {α : Type} (d : List (String × α)) (k : String) (v : α)
    (hnd : (d.map Prod.fst).Nodup) : ((dset d k v).map Prod.fst).Nodup := by
  rw [map_fst_dset]
  split
  · exact hnd
  · next h =>
    have hk : k ∉ d.map Prod.fst := by
      rw [← dget_eq_none_iff]
      cases hd : dget d k
      · rfl
      · simp [hd] at h
    refine hnd.append (List.nodup_singleton k) ?_
    intro x hx hxk
    rw [List.mem_singleton] at hxk
    subst hxk
    exact hk hx

theorem nodup_keys_dremove {α : Type} (d : List (String × α)) (k : String)
    (hnd : (d.map Prod.fst).Nodup) : ((dremove d k).map Prod.fst).Nodup :=
  ((dremove_sublist d k).map Prod.fst).nodup hnd

theorem forall_mem_dset {α : Type} {Q : String × α → Prop}
    (d : List (String × α)) (k : String) (v : α)
    (hd : ∀ p ∈ d, Q p) (hkv : Q (k, v)) : ∀ p ∈ dset d k v, Q p := by
  induction d with
  | nil =>
    intro p hp
    simp only [dset, List.mem_singleton] at hp
    exact hp ▸ hkv
  | cons hd0 tl ih =>
    rcases hd0 with ⟨k', v'⟩
    intro p hp
    by_cases h : k' = k
    · simp only [dset, if_pos h] at hp
      rcases List.mem_cons.1 hp with hp | hp
      · exact hp ▸ hkv
      · exact hd p (List.mem_cons_of_mem _ hp)
    · simp only [dset, if_neg h] at hp
      rcases List.mem_cons.1 hp with hp | hp
      · exact hd p (hp ▸ List.mem_cons_self _ _)
      · exact ih (fun q hq => hd q (List.mem_cons_of_mem _ hq)) p hp

/-! ### Inversion and invariant lemmas about the registry operations -/

theorem mem_of_dget {α : Type} {d : List (String × α)} {k : String} {v : α}
    (h : dget d k = some v) : (k, v) ∈ d := by
  induction d with
  | nil => simp [dget] at h
  | cons hd tl ih =>
    rcases hd with ⟨k', v'⟩
    by_cases hk : k = k'
    · subst hk
      simp [dget] at h
      simp [h]
    · simp only [dget, if_neg hk] at h
      exact List.mem_cons_of_mem _ (ih h)

theorem any_name_eq_any_key {d : List (String × RegisteredFunction V)}
    (hwf : ∀ p ∈ d, p.2.name = p.1) (k : String) :
    d.any (fun e => k = e.2.name) = d.any (fun p => k = p.1) := by
  induction d with
  | nil => rfl
  | cons hd tl ih =>
    have h1 := hwf hd (List.mem_cons_self _ _)
    simp only [List.any_cons]
    rw [h1, ih (fun p hp => hwf p (List.mem_cons_of_mem _ hp))]

theorem mem_eq_dget_isSome (r : Registry V) (hwf : WF r) (k : String) :
    r.mem k = (dget r.functions k).isSome := by
  unfold Registry.mem
  rw [any_name_eq_any_key hwf, ← dget_isSome_eq_any]

theorem mem_true_of_entry {r : Registry V} {s : String}
    {e : RegisteredFunction V} (hmem : (s, e) ∈ r.functions)
    (hname : e.name = s) : r.mem s = true := by
  unfold Registry.mem
  rw [List.any_eq_true]
  exact ⟨(s, e), hmem, by simp [hname]⟩

theorem register_function_inv {r r2 : Registry V} {fn : PyCallable}
    {nmo : Option PyName} {ov : Bool} {md : List (String × V)}
    (h : r.register_function fn nmo ov md = .ok r2) :
    ∃ s, resolvedName fn nmo = .str s ∧ (ov && r.mem s) = false ∧
      r2 = { r with functions := dset r.functions s ⟨fn, s, md⟩ } := by
  unfold Registry.register_function at h
  cases hres : resolvedName fn nmo with
  | nonStr t =>
    rw [hres] at h
    exact absurd h (by simp)
  | str s =>
    rw [hres] at h
    dsimp only at h
    by_cases hov : (ov && r.mem s) = true
    · rw [if_pos hov] at h
      exact absurd h (by simp)
    · rw [if_neg hov] at h
      exact ⟨s, rfl, by simpa using hov, (Except.ok.inj h).symm⟩

theorem call_some_inv {r r2 : Registry V} {fn ret : PyCallable}
    {nmo : Option PyName} {ov : Bool} {md : List (String × V)}
    (h : r.call (some fn) nmo ov md = .ok (.registered r2 ret)) :
    r.register_function fn nmo ov md = .ok r2 ∧ ret = fn := by
  unfold Registry.call at h
  dsimp only at h
  cases hr : r.register_function fn nmo ov md with
  | ok r3 =>
    rw [hr] at h
    simp only [Except.ok.injEq, CallResult.registered.injEq] at h
    exact ⟨congrArg Except.ok h.1, h.2.symm⟩
  | error e =>
    rw [hr] at h
    exact absurd h (by simp)

theorem applyRegistrar_inv {r r2 : Registry V} {cls ret : PyCallable}
    {nmo : Option PyName} {ov : Bool} {md : List (String × V)}
    (h : applyRegistrar r nmo ov md cls = .ok (r2, ret)) :
    r.register_function cls nmo ov md = .ok r2 ∧ ret = cls := by
  unfold applyRegistrar at h
  cases hr : r.register_function cls nmo ov md with
  | ok r3 =>
    rw [hr] at h
    simp only [Except.ok.injEq, Prod.mk.injEq] at h
    exact ⟨congrArg Except.ok h.1, h.2.symm⟩
  | error e =>
    rw [hr] at h
    exact absurd h (by simp)

theorem call_some_not_registrar {r : Registry V} {fn : PyCallable}
    {nmo nmo2 : Option PyName} {ov ov2 : Bool} {md md2 : List (String × V)}
    (h : r.call (some fn) nmo ov md = .ok (.registrar nmo2 ov2 md2)) :
    False := by
  unfold Registry.call at h
  dsimp only at h
  cases hr : r.register_function fn nmo ov md with
  | ok r3 =>
    rw [hr] at h
    simp at h
  | error e =>
    rw [hr] at h
    simp at h

theorem remove_inv {r r2 : Registry V} {key : String}
    (h : r.remove key = .ok r2) :
    (dget r.functions key).isSome = true ∧
      r2 = { r with functions := dremove r.functions key } := by
  unfold Registry.remove at h
  cases hd : dget r.functions key with
  | some v =>
    rw [hd] at h
    exact ⟨rfl, (Except.ok.inj h).symm⟩
  | none =>
    rw [hd] at h
    exact absurd h (by simp)

theorem wf_register {r r2 : Registry V} {fn : PyCallable} {nmo : Option PyName}
    {ov : Bool} {md : List (String × V)}
    (h : r.register_function fn nmo ov md = .ok r2) (hwf : WF r) : WF r2 := by
  obtain ⟨s, _, _, hr2⟩ := register_function_inv h
  subst hr2
  exact forall_mem_dset r.functions s ⟨fn, s, md⟩ hwf rfl

theorem wf_remove {r r2 : Registry V} {key : String}
    (h : r.remove key = .ok r2) (hwf : WF r) : WF r2 := by
  obtain ⟨-, hr2⟩ := remove_inv h
  subst hr2
  intro p hp
  exact hwf p ((dremove_sublist r.functions key).subset hp)

theorem wf_stepR (r : Registry V) (op : Op V) (hwf : WF r) :
    WF (stepR r op).1 := by
  cases op with
  | reg fn nmo ov md =>
    dsimp only [stepR]
    cases hc : r.call (some fn) nmo ov md with
    | error e => exact hwf
    | ok res =>
      cases res with
      | registered r2 ret => exact wf_register (call_some_inv hc).1 hwf
      | registrar a b c => exact absurd hc call_some_not_registrar
  | regPhase2 nmo ov md cls =>
    dsimp only [stepR]
    cases hc : applyRegistrar r nmo ov md cls with
    | error e => exact hwf
    | ok pr =>
      rcases pr with ⟨r2, ret⟩
      exact wf_register (applyRegistrar_inv hc).1 hwf
  | rem key =>
    dsimp only [stepR]
    cases hc : r.remove key with
    | error e => exact hwf
    | ok r2 => exact wf_remove hc hwf
  | lookupOp key => exact hwf
  | getOp key kw => exact hwf
  | containsOp key => exact hwf
  | sizeOp => exact hwf
  | keysOp => exact hwf

theorem wf_runStats (r : Registry V) (ops : List (Op V)) (hwf : WF r) :
    WF (runStats r ops).1 := by
  induction ops generalizing r with
  | nil => exact hwf
  | cons op rest ih => exact ih (stepR r op).1 (wf_stepR r op hwf)

theorem wf_init (nm : String) (bm : Bool) : WF (Registry.init (V := V) nm bm) :=
  fun p hp => absurd hp (List.not_mem_nil p)

theorem stepR_size (r : Registry V) (op : Op V) :
    (stepR r op).1.size + (if (stepR r op).2 = StepKind.remDone then 1 else 0) =
      r.size + (if (stepR r op).2 = StepKind.regFresh then 1 else 0) := by
  cases op with
  | reg fn nmo ov md =>
    dsimp only [stepR]
    cases hc : r.call (some fn) nmo ov md with
    | error e => simp
    | ok res =>
      cases res with
      | registrar a b c => exact absurd hc call_some_not_registrar
      | registered r2 ret =>
        obtain ⟨hreg, -⟩ := call_some_inv hc
        obtain ⟨s, hres, -, hr2⟩ := register_function_inv hreg
        subst hr2
        dsimp only
        unfold regKind
        rw [hres]
        dsimp only
        unfold Registry.size
        dsimp only
        rw [length_dset]
        cases hd : (dget r.functions s).isSome
        · simp [hd]
        · simp [hd]
  | regPhase2 nmo ov md cls =>
    dsimp only [stepR]
    cases hc : applyRegistrar r nmo ov md cls with
    | error e => simp
    | ok pr =>
      rcases pr with ⟨r2, ret⟩
      obtain ⟨hreg, -⟩ := applyRegistrar_inv hc
      obtain ⟨s, hres, -, hr2⟩ := register_function_inv hreg
      subst hr2
      dsimp only
      unfold regKind
      rw [hres]
      dsimp only
      unfold Registry.size
      dsimp only
      rw [length_dset]
      cases hd : (dget r.functions s).isSome
      · simp [hd]
      · simp [hd]
  | rem key =>
    dsimp only [stepR]
    cases hc : r.remove key with
    | error e => simp
    | ok r2 =>
      obtain ⟨hd, hr2⟩ := remove_inv hc
      subst hr2
      dsimp only
      unfold Registry.size
      dsimp only
      cases hsome : dget r.functions key with
      | none =>
        rw [hsome] at hd
        cases hd
      | some v =>
        have hlen := length_dremove r.functions key v hsome
        rw [if_pos rfl, if_neg (fun hh => StepKind.noConfusion hh)]
        omega
  | lookupOp key => simp [stepR]
  | getOp key kw => simp [stepR]
  | containsOp key => simp [stepR]
  | sizeOp => simp [stepR]
  | keysOp => simp [stepR]

theorem runStats_size (r : Registry V) (ops : List (Op V)) :
    (runStats r ops).1.size + countKind StepKind.remDone (runStats r ops).2 =
      r.size + countKind StepKind.regFresh (runStats r ops).2 := by
  induction ops generalizing r with
  | nil => simp [runStats, countKind]
  | cons op rest ih =>
    have hstep := stepR_size r op
    have hih := ih (stepR r op).1
    dsimp only [runStats, countKind]
    omega

/-! ### The claims -/

/-- Claim C1: the spec requires re-registration of an existing name to fail
with the conflict error when `override` is false and to replace the entry
when it is true.  The code tests `if override and name in self`, so it does
the inverse: it raises the conflict error exactly when `override=True` and
an entry exists, and silently replaces the entry when `override=False` —
contradicting its own message, which hints `Use override=True`.  This
theorem evaluates both behaviors at the failing input. -/
theorem register_conflict_condition_inverted :
    regF.register_function fnG (some (PyName.str "f")) true [] =
      .error (.conflict "f" []) ∧
    regF.register_function fnG (some (PyName.str "f")) false [] =
      .ok ⟨"reg", [("f", entryGasF)], false⟩ := by
  constructor
  · rfl
  · rfl

/-- Claim C2: with `bind_metadata` true, the candidate keyword set of `get`
is the override kwargs merged on top of the stored metadata, the overrides
winning on any key collision; with it false the candidate set is exactly the
override kwargs and the metadata contributes nothing. -/
theorem candidate_kwargs_semantics (r : Registry V) (md kw : List (String × V))
    (hnd : (kw.map Prod.fst).Nodup) :
    (r.bind_metadata = true →
      ∀ k, dget (candidateKwargs r md kw) k = (dget kw k).or (dget md k)) ∧
    (r.bind_metadata = false → candidateKwargs r md kw = kw) := by
  constructor
  · intro hb k
    rw [candidateKwargs, if_pos hb, dget_dmerge md kw k hnd]
  · intro hb
    rw [candidateKwargs, if_neg (by simp [hb])]

/-- Witness for C2: with metadata `{a:1}` and override `{a:2}` the candidate
set carries `a=2`. -/
theorem candidate_kwargs_semantics_witness :
    dget (candidateKwargs regH [("a", 1)] [("a", 2)]) "a" = some 2 := by
  have h := (candidate_kwargs_semantics regH [("a", 1)] [("a", 2)]
    (by simp)).1 rfl "a"
  exact h.trans rfl

/-- Claim C3: when the callable has a variadic-keyword parameter the
candidate set is bound unfiltered; otherwise it is filtered to exactly the
keys naming a positional-or-keyword parameter, anything else silently
dropped; and an empty final set returns the original callable unwrapped. -/
theorem get_filtering_semantics (r : Registry V) (key : String)
    (kw cand final : List (String × V)) (entry : RegisteredFunction V)
    (h : r.get_with_metadata key = .ok entry)
    (hcand : cand = candidateKwargs r entry.metadata kw)
    (hfinal : final =
      if has_var_kwargs entry.fn = false then
        cand.filter (fun p => (iterate_arg_names entry.fn).contains p.1)
      else cand) :
    r.get key kw =
      .ok (if final.isEmpty = false then .bound entry.fn final
           else .orig entry.fn) ∧
    (has_var_kwargs entry.fn = true → final = cand) ∧
    (has_var_kwargs entry.fn = false → ∀ k,
      dget final k =
        if (iterate_arg_names entry.fn).contains k then dget cand k
        else none) ∧
    (final = [] → r.get key kw = .ok (.orig entry.fn)) := by
  subst hcand
  subst hfinal
  refine ⟨?_, ?_, ?_, ?_⟩
  · unfold Registry.get
    rw [h]
  · intro hb
    rw [if_neg (by simp [hb])]
  · intro hb k
    rw [if_pos hb]
    exact dget_filter (candidateKwargs r entry.metadata kw)
      (fun x => (iterate_arg_names entry.fn).contains x) k
  · intro hf
    unfold Registry.get
    rw [h]
    dsimp only
    rw [hf]
    rfl

/-- Witness for C3: `fnH` has one positional-or-keyword parameter `a` and no
variadic-keyword parameter, so metadata `{a:1}` is kept and pre-bound. -/
theorem get_filtering_semantics_witness :
    regH.get "k" [] = .ok (.bound fnH [("a", 1)]) := by
  have h := (get_filtering_semantics regH "k" [] [("a", 1)] [("a", 1)] entryH
    rfl rfl rfl).1
  exact h.trans rfl

/-- Claim C4: a successful registration stores the very callable instance
under the resolved name, makes membership true, lets lookup retrieve the
stored entry, and returns the callable unchanged; the two-phase registrar
performs the identical registration and also returns the callable. -/
theorem register_success_contains_and_returns (r : Registry V)
    (fn : PyCallable) (nmo : Option PyName) (ov : Bool)
    (md : List (String × V)) (r2 : Registry V) (ret : PyCallable)
    (h : r.call (some fn) nmo ov md = .ok (.registered r2 ret)) :
    ret = fn ∧
    applyRegistrar r nmo ov md fn = .ok (r2, fn) ∧
    ∃ s, resolvedName fn nmo = .str s ∧ r2.mem s = true ∧
      r2.get_with_metadata s = .ok ⟨fn, s, md⟩ := by
  obtain ⟨hreg, hret⟩ := call_some_inv h
  obtain ⟨s, hres, hov, hr2⟩ := register_function_inv hreg
  have happly : applyRegistrar r nmo ov md fn = .ok (r2, fn) := by
    unfold applyRegistrar
    rw [hreg]
  subst hr2
  have hget : dget (dset r.functions s ⟨fn, s, md⟩) s = some ⟨fn, s, md⟩ :=
    dget_dset_self r.functions s ⟨fn, s, md⟩
  have hmem :
      Registry.mem { r with functions := dset r.functions s ⟨fn, s, md⟩ } s =
        true :=
    mem_true_of_entry (mem_of_dget hget) rfl
  refine ⟨hret, happly, s, hres, hmem, ?_⟩
  simp [Registry.get_with_metadata, hmem, hget]

/-- Witness for C4 at a concrete registration on an empty registry. -/
theorem register_success_contains_and_returns_witness :
    fnF = fnF ∧
    applyRegistrar (Registry.init "n" false : Registry Nat)
        (some (PyName.str "x")) false [] fnF =
      .ok (⟨"n", [("x", ⟨fnF, "x", []⟩)], false⟩, fnF) ∧
    ∃ s, resolvedName fnF (some (PyName.str "x")) = .str s ∧
      (⟨"n", [("x", ⟨fnF, "x", []⟩)], false⟩ : Registry Nat).mem s = true ∧
      (⟨"n", [("x", ⟨fnF, "x", []⟩)], false⟩ : Registry Nat).get_with_metadata
          s = .ok ⟨fnF, s, []⟩ :=
  register_success_contains_and_returns (Registry.init "n" false) fnF
    (some (PyName.str "x")) false [] ⟨"n", [("x", ⟨fnF, "x", []⟩)], false⟩
    fnF rfl

/-- Claim C5: registering with `name=None` derives the stored key
deterministically: the wrapped inner function's declared name when the
callable has a `func` attribute, the callable's own declared name
otherwise. -/
theorem register_derives_name (r : Registry V) (fn : PyCallable) (ov : Bool)
    (md : List (String × V)) (r2 : Registry V)
    (h : r.register_function fn none ov md = .ok r2) :
    r2.functions =
      dset r.functions (derivedName fn) ⟨fn, derivedName fn, md⟩ ∧
    (∀ inner, fn.funcAttr = some inner → derivedName fn = inner) ∧
    (fn.funcAttr = none → derivedName fn = fn.pyName) := by
  obtain ⟨s, hres, -, hr2⟩ := register_function_inv h
  have hs : derivedName fn = s := PyName.str.inj hres
  subst hr2
  refine ⟨?_, ?_, ?_⟩
  · rw [hs]
  · intro inner hi
    unfold derivedName
    rw [hi]
  · intro hnone
    unfold derivedName
    rw [hnone]

/-- Witness for C5: registering the curried `fnP` with no name stores it
under the inner function's name. -/
theorem register_derives_name_witness :
    (⟨"n", [("inner", ⟨fnP, "inner", []⟩)], false⟩ : Registry Nat).functions =
      dset (Registry.init "n" false : Registry Nat).functions (derivedName fnP)
        ⟨fnP, derivedName fnP, []⟩ ∧
    (∀ inner, fnP.funcAttr = some inner → derivedName fnP = inner) ∧
    (fnP.funcAttr = none → derivedName fnP = fnP.pyName) :=
  register_derives_name (Registry.init "n" false) fnP false []
    ⟨"n", [("inner", ⟨fnP, "inner", []⟩)], false⟩ rfl

/-- Claim C6 counterexample: with a non-string name the direct-call form
raises the assertion failure of `_register_function` while the two-phase
form raises the TypeError of `__call__`: the two forms do not fail with the
same error, and the direct form's error is not the TypeError. -/
theorem name_type_check_not_identical :
    (Registry.init "n" false : Registry Nat).call (some fnF)
        (some (PyName.nonStr 0)) false [] = .error .assertFailure ∧
    (Registry.init "n" false : Registry Nat).call none
        (some (PyName.nonStr 0)) false [] =
      .error (.typeErrName (PyName.nonStr 0)) ∧
    (RegError.assertFailure : RegError Nat) ≠
      RegError.typeErrName (PyName.nonStr 0) :=
  ⟨rfl, rfl, fun hh => RegError.noConfusion hh⟩

/-- Claim C6 (amended): a supplied non-string name always fails before the
override flag or the registry contents are considered, in both forms; the
two-phase form fails with the TypeError raised eagerly in `__call__`, while
the direct-call form fails with the assertion failure inside
`_register_function`. -/
theorem name_type_check_each_form (r : Registry V) (t : Nat) (fn : PyCallable)
    (ov : Bool) (md : List (String × V)) :
    r.call none (some (PyName.nonStr t)) ov md =
      .error (.typeErrName (PyName.nonStr t)) ∧
    r.call (some fn) (some (PyName.nonStr t)) ov md =
      .error .assertFailure := by
  constructor
  · rfl
  · rfl

/-- Claim C7: lookup of an absent key fails with the KeyError carrying the
key and the sorted list of available keys; lookup of a present key returns
its entry; and `available_keys` is sorted and holds exactly the stored
keys. -/
theorem lookup_semantics (r : Registry V) (key : String) (hwf : WF r) :
    (dget r.functions key = none →
      r.get_with_metadata key = .error (.notFound key r.available_keys)) ∧
    (∀ e, dget r.functions key = some e →
      r.get_with_metadata key = .ok e) ∧
    List.Sorted (fun a b => a ≤ b) r.available_keys ∧
    (∀ k, k ∈ r.available_keys ↔ k ∈ r.functions.map Prod.fst) := by
  have hmem := mem_eq_dget_isSome r hwf key
  refine ⟨?_, ?_, ?_, ?_⟩
  · intro hnone
    have hm : r.mem key = false := by
      rw [hmem, hnone]
      rfl
    simp [Registry.get_with_metadata, hm]
  · intro e he
    have hm : r.mem key = true := by
      rw [hmem, he]
      rfl
    simp [Registry.get_with_metadata, hm, he]
  · unfold Registry.available_keys
    exact List.sorted_mergeSort' (r.functions.map Prod.fst)
  · intro k
    unfold Registry.available_keys
    exact (List.mergeSort_perm (r.functions.map Prod.fst) _).mem_iff

/-- Witness for C7 on a registry holding only `"f"`. -/
theorem lookup_semantics_witness :
    regF.get_with_metadata "g" = .error (.notFound "g" regF.available_keys) ∧
    regF.get_with_metadata "f" = .ok entryF := by
  have hwf : WF regF := by
    intro p hp
    rw [List.mem_singleton.1 hp]
    rfl
  exact ⟨(lookup_semantics regF "g" hwf).1 rfl,
    (lookup_semantics regF "f" hwf).2.1 entryF rfl⟩

/-- Claim C8 counterexample: registering twice under the same name with
`override=False` succeeds both times (the second silently replaces), so the
final size 1 differs from successful registrations minus removals 2 - 0. -/
theorem size_accounting_counterexample :
    (runStats (Registry.init "n" false : Registry Nat) opsTwice).1.size ≠
      countKind StepKind.regFresh
          (runStats (Registry.init "n" false : Registry Nat) opsTwice).2 +
        countKind StepKind.regReplace
          (runStats (Registry.init "n" false : Registry Nat) opsTwice).2 -
        countKind StepKind.remDone
          (runStats (Registry.init "n" false : Registry Nat) opsTwice).2 := by
  decide

/-- Claim C8 (amended): starting from an empty registry, the size plus the
number of successful removals equals the number of successful registrations
that stored under a name not already present (replacing registrations
succeed without changing the size). -/
theorem size_accounting (nm : String) (bm : Bool) (ops : List (Op V)) :
    (runStats (Registry.init nm bm : Registry V) ops).1.size +
      countKind StepKind.remDone
        (runStats (Registry.init nm bm : Registry V) ops).2 =
      countKind StepKind.regFresh
        (runStats (Registry.init nm bm : Registry V) ops).2 := by
  have h := runStats_size (Registry.init nm bm : Registry V) ops
  simpa [Registry.init, Registry.size] using h

/-- Claim C9: every reachable registry state satisfies the invariant that
each stored entry's name equals its dict key, and consequently the
name-comparing membership test agrees with dict-key membership. -/
theorem reachable_wf_and_contains (nm : String) (bm : Bool)
    (ops : List (Op V)) :
    WF (runStats (Registry.init nm bm : Registry V) ops).1 ∧
    ∀ k, ((runStats (Registry.init nm bm : Registry V) ops).1).mem k =
      (dget ((runStats (Registry.init nm bm : Registry V) ops).1).functions
        k).isSome := by
  have hwf := wf_runStats (Registry.init nm bm : Registry V) ops
    (wf_init nm bm)
  exact ⟨hwf, fun k => mem_eq_dget_isSome _ hwf k⟩

/-- Claim C10: a successful registration changes only the entry under the
resolved name and a successful removal only the entry under its key — the
registry's own name, its `bind_metadata` flag and every other entry are
untouched — and the read operations leave the state unchanged. -/
theorem frame_properties (r : Registry V) :
    (∀ fn nmo ov md r2 ret,
      r.call (some fn) nmo ov md = .ok (.registered r2 ret) →
      r2.name = r.name ∧ r2.bind_metadata = r.bind_metadata ∧
      ∀ k, resolvedName fn nmo ≠ PyName.str k →
        dget r2.functions k = dget r.functions k) ∧
    (∀ nmo ov md cls r2 ret,
      applyRegistrar r nmo ov md cls = .ok (r2, ret) →
      r2.name = r.name ∧ r2.bind_metadata = r.bind_metadata ∧
      ∀ k, resolvedName cls nmo ≠ PyName.str k →
        dget r2.functions k = dget r.functions k) ∧
    (∀ key r2, r.remove key = .ok r2 →
      r2.name = r.name ∧ r2.bind_metadata = r.bind_metadata ∧
      (∀ k, k ≠ key → dget r2.functions k = dget r.functions k) ∧
      ((r.functions.map Prod.fst).Nodup → dget r2.functions key = none)) ∧
    (∀ key kw k,
      (stepR r (Op.lookupOp key)).1 = r ∧
      (stepR r (Op.getOp key kw)).1 = r ∧
      (stepR r (Op.containsOp k)).1 = r ∧
      (stepR r Op.sizeOp).1 = r ∧ (stepR r Op.keysOp).1 = r) := by
  refine ⟨?_, ?_, ?_, ?_⟩
  · intro fn nmo ov md r2 ret h
    obtain ⟨hreg, -⟩ := call_some_inv h
    obtain ⟨s, hres, -, hr2⟩ := register_function_inv hreg
    subst hr2
    refine ⟨rfl, rfl, fun k hk => ?_⟩
    have hks : k ≠ s := by
      intro hh
      subst hh
      exact hk hres
    exact dget_dset_ne r.functions ⟨fn, s, md⟩ hks
  · intro nmo ov md cls r2 ret h
    obtain ⟨hreg, -⟩ := applyRegistrar_inv h
    obtain ⟨s, hres, -, hr2⟩ := register_function_inv hreg
    subst hr2
    refine ⟨rfl, rfl, fun k hk => ?_⟩
    have hks : k ≠ s := by
      intro hh
      subst hh
      exact hk hres
    exact dget_dset_ne r.functions ⟨cls, s, md⟩ hks
  · intro key r2 h
    obtain ⟨-, hr2⟩ := remove_inv h
    subst hr2
    exact ⟨rfl, rfl, fun k hk => dget_dremove_ne r.functions hk,
      fun hnd => dget_dremove_self r.functions key hnd⟩
  · intro key kw k
    exact ⟨rfl, rfl, rfl, rfl, rfl⟩

/-- Witness for C10: registering `"x"` on a registry holding `"f"` leaves
the entry at `"f"` unchanged, and removing `"f"` empties only that key. -/
theorem frame_properties_witness :
    dget (⟨"reg", [("f", entryF), ("x", ⟨fnG, "x", []⟩)], false⟩ :
        Registry Nat).functions "f" = dget regF.functions "f" ∧
    dget (⟨"reg", [], false⟩ : Registry Nat).functions "f" = none := by
  have h := frame_properties regF
  refine ⟨(h.1 fnG (some (PyName.str "x")) false []
    ⟨"reg", [("f", entryF), ("x", ⟨fnG, "x", []⟩)], false⟩ fnG rfl).2.2 "f"
    (by decide), ?_⟩
  exact (h.2.2.1 "f" ⟨"reg", [], false⟩ rfl).2.2.2 (by decide)

end CallableRegistry
